import Mathlib

/-!
Verification of the curling library (request-to-curl-command translation).

The Go source (command.go, option.go) is shallowly embedded below.  Go
strings are modelled as lists of characters (`Str`); the request body
stream is modelled by the byte sequence it yields together with a flag
saying whether the stream ends in a hard I/O error instead of EOF.
-/

namespace Curling

/-- Go strings, modelled as lists of characters. -/
abbrev Str := List Char

/-- The single-quote character. -/
def quoteS : Char := Char.ofNat 39

/-- The double-quote character. -/
def quoteD : Char := Char.ofNat 34

/-- The backslash character. -/
def bslash : Char := Char.ofNat 92

/-- The backtick character. -/
def btick : Char := Char.ofNat 96

/-- The dollar character. -/
def dollar : Char := Char.ofNat 36

/-- The newline character. -/
def nlChar : Char := Char.ofNat 10

/-- strings.Join: join the parts with the separator between them. -/
def joinSep (sep : Str) : List Str → Str
  | [] => []
  | [x] => x
  | x :: xs => x ++ sep ++ joinSep sep xs

/-- strings.ReplaceAll with a single-character pattern: every occurrence of
the character is replaced independently. -/
def replaceAllChar (t : Char) (rep : Str) (s : Str) : Str :=
  s.flatMap fun c => if c = t then rep else [c]

/-- outputStyle from option.go. -/
structure OutputStyle where
  useLongForm : Bool := false
  useMultiLine : Bool := false
  useDoubleQuotes : Bool := false
  lineContinuation : Str := []
deriving DecidableEq

/-- curlFlags from option.go. -/
structure CurlFlags where
  location : Bool := false
  compressed : Bool := false
  insecure : Bool := false
  silent : Bool := false
deriving DecidableEq

/-- config from option.go. -/
structure Config where
  style : OutputStyle := {}
  flags : CurlFlags := {}
  requestTimeout : Int := 0
  maxBodySize : Int := 0
deriving DecidableEq

/-- defaultMaxBodySize from option.go. -/
def defaultMaxBodySize : Int := 1024

/-- escape from command.go. -/
def escape (style : OutputStyle) (s : Str) : Str :=
  if style.useDoubleQuotes then
    let v1 := replaceAllChar quoteD [bslash, quoteD] s
    let v2 := replaceAllChar btick [bslash, btick] v1
    let v3 := replaceAllChar dollar [bslash, dollar] v2
    quoteD :: v3 ++ [quoteD]
  else
    let v := replaceAllChar quoteS [quoteS, bslash, quoteS, quoteS] s
    quoteS :: v ++ [quoteS]

/-- optionForm from command.go. -/
def optionForm (style : OutputStyle) (short long : Str) : Str :=
  if style.useLongForm then long else short

/-- r.Body: nil, the http.NoBody sentinel, or a readable stream that yields
`data` and then either EOF (`hardErr = false`) or a hard I/O error
(`hardErr = true`). -/
inductive BodyReader
  | nil
  | noBody
  | stream (data : Str) (hardErr : Bool)
deriving DecidableEq

/-- Whether the request carried an actual body stream object. -/
def BodyReader.isStream : BodyReader → Bool
  | .stream _ _ => true
  | _ => false

/-- The collaborating *http.Request.  The stdlib accessors used by the code
(URL.String, BasicAuth, Cookies together with cookie.String) are modelled by
their result values: `url` is the rendered URL (or none for a nil URL),
`basicAuth` is the decoded user/password pair when the Authorization header
carries valid basic credentials, and `cookieStrings` is the list of rendered
"name=value" cookie strings in request order. -/
structure Request where
  method : Str
  url : Option Str
  host : Str
  header : List (Str × List Str)
  contentLength : Int
  body : BodyReader
  basicAuth : Option (Str × Str)
  cookieStrings : List Str
deriving DecidableEq

/-- parsedRequest from command.go. -/
structure ParsedRequest where
  request : Request
  hasAuth : Bool
  user : Str
  pass : Str
  hasData : Bool
  body : Option Str
  hasCookies : Bool
  cookies : Str
  bodyTruncated : Bool
  contentLength : Int
deriving DecidableEq

/-- bufio.NewReader's internal buffer size (bufio.defaultBufSize). -/
def bufSize : Nat := 4096

/-- The outcomes of bufio.Reader.Peek relevant to the code: success, io.EOF,
bufio.ErrBufferFull, or a hard I/O error from the underlying stream. -/
inductive PeekErr
  | noerr
  | eofErr
  | bufferFull
  | hard
deriving DecidableEq

/-- bufio.Reader.Peek n on a fresh reader over a stream yielding `data` and
then EOF or a hard error.  The fill loop pulls bytes until n bytes are
buffered, the internal buffer is full, or the stream ends; when n exceeds the
buffer size Peek reports ErrBufferFull with whatever was buffered, otherwise
it reports the stream's error when fewer than n bytes were available. -/
def bufioPeek (data : Str) (hardErr : Bool) (n : Nat) : Str × PeekErr :=
  if bufSize < n then (data.take bufSize, .bufferFull)
  else if data.length < n then (data, if hardErr then .hard else .eofErr)
  else (data.take n, .noerr)

/-- How many bytes the fill loop pulled from the underlying stream into the
bufio buffer while peeking n bytes (Peek itself consumes none of them). -/
def bufioPulled (data : Str) (n : Nat) : Nat :=
  min data.length (min n bufSize)

/-- Result of parsedRequest.build: success (with the body reader that is put
back on the request for subsequent consumers), the error return for a hard
I/O failure, or the run-time panic raised by bytes.Buffer.Truncate when the
requested length exceeds the buffer's length. -/
inductive BuildRes
  | ok (m : ParsedRequest) (restoredBody : BodyReader)
  | readErr
  | crash
deriving DecidableEq

/-- "; " -/
def cookieSep : Str := [';', ' ']

/-- parsedRequest.build from command.go.  The body is captured by peeking
maxBodySize+1 bytes through a bufio.Reader; the restored request body is the
buffered bytes followed by the unread remainder of the original stream. -/
def parsedRequestBuild (r : Request) (cfg : Config) : BuildRes :=
  let m0 : ParsedRequest :=
    { request := r
      hasAuth := r.basicAuth.isSome
      user := (r.basicAuth.map Prod.fst).getD []
      pass := (r.basicAuth.map Prod.snd).getD []
      hasData := false
      body := none
      hasCookies := !r.cookieStrings.isEmpty
      cookies := joinSep cookieSep r.cookieStrings
      bodyTruncated := false
      contentLength := r.contentLength }
  match r.body with
  | .nil => .ok m0 r.body
  | .noBody => .ok m0 r.body
  | .stream data hardErr =>
    let peekSize : Int := if cfg.maxBodySize ≤ 0 then defaultMaxBodySize else cfg.maxBodySize
    let ps : Nat := peekSize.toNat
    let pr := bufioPeek data hardErr (ps + 1)
    let peekBuffer := pr.1
    if pr.2 = .hard then .readErr
    else
      let pulled := bufioPulled data (ps + 1)
      let restored := BodyReader.stream (data.take pulled ++ data.drop pulled) hardErr
      if pr.2 = .noerr ∨ pr.2 = .bufferFull then
        if peekBuffer.length < ps then .crash
        else
          .ok { m0 with hasData := true, body := some (peekBuffer.take ps),
                        bodyTruncated := true } restored
      else
        .ok { m0 with hasData := true, body := some peekBuffer } restored

/-- strconv.Itoa / the %d verb. -/
def intToStr (i : Int) : Str := (toString i).toList

/-- buildOptions from command.go. -/
def buildOptions (args : List Str) (cfg : Config) : List Str :=
  let args := if cfg.flags.silent then args ++ [optionForm cfg.style "-s".toList "--silent".toList] else args
  let args := if 0 < cfg.requestTimeout then
      args ++ [optionForm cfg.style "-m".toList "--max-time".toList, intToStr cfg.requestTimeout]
    else args
  let args := if cfg.flags.insecure then args ++ [optionForm cfg.style "-k".toList "--insecure".toList] else args
  let args := if cfg.flags.compressed then args ++ ["--compressed".toList] else args
  let args := if cfg.flags.location then args ++ [optionForm cfg.style "-L".toList "--location".toList] else args
  args

/-- buildAuth from command.go (the "user:pass" string built with %s:%s). -/
def buildAuth (args : List Str) (cfg : Config) (model : ParsedRequest) : List Str :=
  if !model.hasAuth then args
  else
    let authStr := model.user ++ [':'] ++ model.pass
    args ++ [optionForm cfg.style "-u".toList "--user".toList, escape cfg.style authStr]

/-- buildCookies from command.go. -/
def buildCookies (args : List Str) (cfg : Config) (model : ParsedRequest) : List Str :=
  if !model.hasCookies then args
  else args ++ [optionForm cfg.style "-b".toList "--cookie".toList, escape cfg.style model.cookies]

/-- "... (truncated body, total N bytes)" -/
def markerTotal (n : Int) : Str :=
  "... (truncated body, total ".toList ++ intToStr n ++ " bytes)".toList

/-- "... (truncated body)" -/
def markerGeneric : Str := "... (truncated body)".toList

/-- buildData from command.go. -/
def buildData (args : List Str) (cfg : Config) (model : ParsedRequest) : List Str :=
  match model.body with
  | none => args
  | some b =>
    let body :=
      if model.bodyTruncated then
        if 0 < model.contentLength then b ++ markerTotal model.contentLength
        else b ++ markerGeneric
      else b
    args ++ ["--data-raw".toList, escape cfg.style body]

/-- "GET" -/
def methodGet : Str := "GET".toList

/-- "POST" -/
def methodPost : Str := "POST".toList

/-- buildMethod from command.go. -/
def buildMethod (args : List Str) (cfg : Config) (model : ParsedRequest) : List Str :=
  let method :=
    if model.request.method = [] then
      if model.hasData then methodPost else methodGet
    else model.request.method
  if (method = methodGet ∧ model.hasData = false) ∨ (method = methodPost ∧ model.hasData = true) then
    args
  else
    args ++ [optionForm cfg.style "-X".toList "--request".toList, escape cfg.style method]

/-- buildURL from command.go (the request URL is known non-nil by the time it
runs; a nil URL renders as the empty string here, unreachable in context). -/
def buildURL (args : List Str) (cfg : Config) (model : ParsedRequest) : List Str :=
  args ++ [escape cfg.style (model.request.url.getD [])]

/-- A byte allowed in a MIME header key (net/textproto validHeaderFieldByte). -/
def validHeaderFieldChar (c : Char) : Bool :=
  ('0' ≤ c && c ≤ '9') || ('a' ≤ c && c ≤ 'z') || ('A' ≤ c && c ≤ 'Z') ||
  c == '!' || c == '#' || c == dollar || c == '%' || c == '&' || c == quoteS ||
  c == '*' || c == '+' || c == '-' || c == '.' || c == '^' || c == '_' ||
  c == btick || c == '|' || c == '~'

/-- The case canonicalization pass: uppercase the letter at the start and
after each dash, lowercase every other letter. -/
def canonCase : Bool → Str → Str
  | _, [] => []
  | upper, c :: rest =>
    (if upper then c.toUpper else c.toLower) :: canonCase (c == '-') rest

/-- http.CanonicalHeaderKey (textproto.CanonicalMIMEHeaderKey): keys with any
invalid byte are returned unchanged, otherwise they are canonically cased. -/
def canonicalHeaderKey (s : Str) : Str :=
  if s.all validHeaderFieldChar then canonCase true s else s

/-- "Host" -/
def hostKey : Str := "Host".toList

/-- ": " -/
def colonSp : Str := [':', ' ']

/-- ", " -/
def commaSp : Str := [',', ' ']

/-- The header loop of buildHeaders: walks the request headers threading the
host value, skipping handled keys, diverting Host-canonical keys into the
host value, and collecting the remaining "Key: value" strings in order. -/
def collectHeaders (handled : List Str) : List (Str × List Str) → Str → List Str × Str
  | [], host => ([], host)
  | (key, values) :: rest, host =>
    let canonicalKey := canonicalHeaderKey key
    if canonicalKey ∈ handled then collectHeaders handled rest host
    else if canonicalKey = hostKey then
      collectHeaders handled rest (if host = [] then joinSep commaSp values else host)
    else
      let p := collectHeaders handled rest host
      ((canonicalKey ++ colonSp ++ joinSep commaSp values) :: p.1, p.2)

/-- The header strings of buildHeaders before sorting: the generic headers in
request order, then one "Host: value" entry when a host value was resolved. -/
def preSortHeaderLines (model : ParsedRequest) (handled : List Str) : List Str :=
  let p := collectHeaders handled model.request.header model.request.host
  p.1 ++ (if p.2 = [] then [] else [hostKey ++ colonSp ++ p.2])

/-- The header strings of buildHeaders after slices.Sort (the ascending
lexicographic rearrangement, rendered here by insertion sort, whose output
list any correct sort of strings equals). -/
def headerLines (model : ParsedRequest) (handled : List Str) : List Str :=
  List.insertionSort (· ≤ ·) (preSortHeaderLines model handled)

/-- The rendering of one header line as a "-H 'Key: value'" token. -/
def headerTokenOf (cfg : Config) (h : Str) : Str :=
  joinSep " ".toList [optionForm cfg.style "-H".toList "--header".toList, escape cfg.style h]

/-- buildHeaders from command.go. -/
def buildHeaders (cfg : Config) (model : ParsedRequest) (handled : List Str) : List Str :=
  if model.request.header = [] ∧ model.request.host = [] then []
  else (headerLines model handled).map (headerTokenOf cfg)

/-- assembleTokens from command.go. -/
def assembleTokens (mainArgs headerArgs : List Str) : List Str :=
  joinSep " ".toList mainArgs :: headerArgs

/-- A Command: the token lines plus the data they were built from. -/
structure Command where
  tokens : List Str
  cfg : Config
  model : ParsedRequest
deriving DecidableEq

/-- "Authorization" -/
def authorizationKey : Str := "Authorization".toList

/-- "Cookie" -/
def cookieKey : Str := "Cookie".toList

/-- The handledHeaders set as populated by buildAuth and buildCookies before
buildHeaders runs. -/
def handledHeadersOf (model : ParsedRequest) : List Str :=
  (if model.hasAuth then [authorizationKey] else []) ++
  (if model.hasCookies then [cookieKey] else [])

/-- construct from command.go: the fixed builder pipeline. -/
def construct (cfg : Config) (model : ParsedRequest) : Command :=
  let commandParts :=
    buildURL (buildMethod (buildData (buildCookies (buildAuth
      (buildOptions ["curl".toList] cfg) cfg model) cfg model) cfg model) cfg model) cfg model
  let headerParts := buildHeaders cfg model (handledHeadersOf model)
  { tokens := assembleTokens commandParts headerParts, cfg := cfg, model := model }

/-- Command.String from command.go. -/
def commandRender (c : Command) : Str :=
  let separator :=
    if c.cfg.style.useMultiLine then ' ' :: c.cfg.style.lineContinuation ++ [nlChar]
    else " ".toList
  (String.mk (joinSep separator c.tokens)).trim.toList

/-- The functional options of option.go. -/
inductive CurlOption
  | followRedirects
  | compression
  | insecure
  | longForm
  | silent
  | multiLine
  | windowsMultiLine
  | powerShellMultiLine
  | doubleQuotes
  | requestTimeout (seconds : Int)
  | maxBodySize (numBytes : Int)
deriving DecidableEq

/-- The With... option constructors of option.go, as config transformers. -/
def applyOption : CurlOption → Config → Config
  | .followRedirects, c => { c with flags := { c.flags with location := true } }
  | .compression, c => { c with flags := { c.flags with compressed := true } }
  | .insecure, c => { c with flags := { c.flags with insecure := true } }
  | .longForm, c => { c with style := { c.style with useLongForm := true } }
  | .silent, c => { c with flags := { c.flags with silent := true } }
  | .multiLine, c => { c with style := { c.style with useMultiLine := true, lineContinuation := [bslash] } }
  | .windowsMultiLine, c => { c with style := { c.style with useMultiLine := true, lineContinuation := ['^'] } }
  | .powerShellMultiLine, c => { c with style := { c.style with useMultiLine := true, lineContinuation := [btick] } }
  | .doubleQuotes, c => { c with style := { c.style with useDoubleQuotes := true } }
  | .requestTimeout s, c => { c with requestTimeout := if s < 0 then 0 else s }
  | .maxBodySize b, c => { c with maxBodySize := if b ≤ 0 then defaultMaxBodySize else b }

/-- Result of NewFromRequest: a Command, one of the two error returns, or the
run-time panic inherited from the body capture. -/
inductive CmdRes
  | ok (c : Command)
  | errNilURL
  | errReadBody
  | crash
deriving DecidableEq

/-- NewFromRequest from command.go. -/
def newFromRequest (r : Request) (opts : List CurlOption) : CmdRes :=
  let cfg0 : Config := { maxBodySize := defaultMaxBodySize }
  let cfg := opts.foldl (fun c o => applyOption o c) cfg0
  if r.url = none then .errNilURL
  else
    match parsedRequestBuild r cfg with
    | .readErr => .errReadBody
    | .crash => .crash
    | .ok m _ => .ok (construct cfg m)

/-- Quoting state of the POSIX word parser: outside quotes, inside single
quotes, inside double quotes. -/
inductive QMode
  | plain
  | insq
  | indq
deriving DecidableEq

/-- Modelled from the spec: the POSIX shell quoting conventions the escaper
must round-trip through ("parsed by a POSIX-compatible shell under the
corresponding quoting convention").  A single word is read back into the
literal string it denotes: outside quotes a backslash escapes the next
character (backslash-newline is a line continuation), single quotes make
everything literal until the closing quote, double quotes make everything
literal except that backslash escapes dollar, backtick, double-quote,
backslash and newline, and an unescaped dollar or backtick starts an
expansion (so the word is not a literal; returned as none, as is an
unterminated quote or trailing backslash). -/
def parseShellWord : Str → QMode → Option Str
  | [], .plain => some []
  | [], .insq => none
  | [], .indq => none
  | c :: rest, .plain =>
    if c = quoteS then parseShellWord rest .insq
    else if c = quoteD then parseShellWord rest .indq
    else if c = bslash then
      match rest with
      | [] => none
      | d :: rest2 =>
        if d = nlChar then parseShellWord rest2 .plain
        else (parseShellWord rest2 .plain).map (d :: ·)
    else if c = dollar ∨ c = btick then none
    else (parseShellWord rest .plain).map (c :: ·)
  | c :: rest, .insq =>
    if c = quoteS then parseShellWord rest .plain
    else (parseShellWord rest .insq).map (c :: ·)
  | c :: rest, .indq =>
    if c = quoteD then parseShellWord rest .plain
    else if c = bslash then
      match rest with
      | [] => none
      | d :: rest2 =>
        if d = quoteD ∨ d = btick ∨ d = dollar ∨ d = bslash then
          (parseShellWord rest2 .indq).map (d :: ·)
        else if d = nlChar then parseShellWord rest2 .indq
        else (parseShellWord rest2 .indq).map (fun t => c :: d :: t)
    else if c = dollar ∨ c = btick then none
    else (parseShellWord rest .indq).map (c :: ·)

/-- Whether the build succeeded. -/
def resOk : BuildRes → Bool
  | .ok _ _ => true
  | _ => false

/-- The body reader put back on the request, when the build succeeded. -/
def restoredOf : BuildRes → Option BodyReader
  | .ok _ rb => some rb
  | _ => none

/-- The parsed model, when the build succeeded. -/
def modelOf : BuildRes → Option ParsedRequest
  | .ok m _ => some m
  | _ => none

/-- Whether the model holds a captured body, when the build succeeded. -/
def bodyPresentOf : BuildRes → Option Bool
  | .ok m _ => some m.body.isSome
  | _ => none

/-- The truncation flag of the model, when the build succeeded. -/
def truncatedOf : BuildRes → Option Bool
  | .ok m _ => some m.bodyTruncated
  | _ => none

/-- Modelled from the spec: the effective method — the declared one, or GET
without body-data and POST with body-data when none was declared. -/
def specEffectiveMethod (declared : Str) (hasData : Bool) : Str :=
  if declared = [] then (if hasData then methodPost else methodGet) else declared

/-- Modelled from the spec: the only two combinations that omit the explicit
request-method flag. -/
def specMethodFlagOmitted (eff : Str) (hasData : Bool) : Prop :=
  (eff = methodGet ∧ hasData = false) ∨ (eff = methodPost ∧ hasData = true)

instance (eff : Str) (hasData : Bool) : Decidable (specMethodFlagOmitted eff hasData) := by
  unfold specMethodFlagOmitted; infer_instance

/-- Modelled from the spec: the marker appended to the un-escaped body text
when the capture was truncated. -/
def specTruncationMarker (truncated : Bool) (contentLength : Int) : Str :=
  if truncated then
    if 0 < contentLength then markerTotal contentLength else markerGeneric
  else []

/-- Modelled from the spec: the silent flag part of the flags stage. -/
def specSilentPart (cfg : Config) : List Str :=
  if cfg.flags.silent then [optionForm cfg.style "-s".toList "--silent".toList] else []

/-- Modelled from the spec: the request-timeout part of the flags stage,
present only when the configured timeout is greater than 0. -/
def specTimeoutPart (cfg : Config) : List Str :=
  if 0 < cfg.requestTimeout then
    [optionForm cfg.style "-m".toList "--max-time".toList, intToStr cfg.requestTimeout]
  else []

/-- Modelled from the spec: the insecure flag part of the flags stage. -/
def specInsecurePart (cfg : Config) : List Str :=
  if cfg.flags.insecure then [optionForm cfg.style "-k".toList "--insecure".toList] else []

/-- Modelled from the spec: the compressed flag part of the flags stage. -/
def specCompressedPart (cfg : Config) : List Str :=
  if cfg.flags.compressed then ["--compressed".toList] else []

/-- Modelled from the spec: the follow-redirects flag part of the flags stage. -/
def specLocationPart (cfg : Config) : List Str :=
  if cfg.flags.location then [optionForm cfg.style "-L".toList "--location".toList] else []

/-- The buffered bytes followed by the unread remainder of the stream are the
original byte sequence. -/
theorem restore_eq (data : Str) (h : Bool) (n : Nat) :
    BodyReader.stream (data.take (bufioPulled data n) ++ data.drop (bufioPulled data n)) h =
      BodyReader.stream data h := by
  simp [List.take_append_drop]

/-- C1: for every request whose body stream is non-nil and not the no-body
sentinel, and every configured max-body-size, when the build returns
successfully the body reader put back on the request yields exactly the
original byte sequence (and ends the same way), whether the body was under,
at, or over the limit; for nil/no-body the reader is untouched. -/
theorem build_restores_original_body (r : Request) (cfg : Config) :
    restoredOf (parsedRequestBuild r cfg) =
      if resOk (parsedRequestBuild r cfg) then some r.body else none := by
  unfold parsedRequestBuild
  cases hb : r.body with
  | nil => rfl
  | noBody => rfl
  | stream data hardErr =>
    simp only [restore_eq]
    repeat' split
    all_goals simp_all [restoredOf, resOk]

/-- C5: the method stage treats an empty declared method as GET without
body-data and POST with body-data, and appends the request-method flag with
the escaped method for every effective method except exactly GET-without-data
and POST-with-data. -/
theorem buildMethod_matches_spec (args : List Str) (cfg : Config) (m : ParsedRequest) :
    buildMethod args cfg m =
      if specMethodFlagOmitted (specEffectiveMethod m.request.method m.hasData) m.hasData then
        args
      else
        args ++ [optionForm cfg.style "-X".toList "--request".toList,
                 escape cfg.style (specEffectiveMethod m.request.method m.hasData)] := by
  unfold buildMethod specEffectiveMethod specMethodFlagOmitted
  rfl

/-- C6: the data stage appends the data flag exactly when a captured body is
present (even zero-length), with the truncation marker — with byte count when
the declared content length is known positive, generic otherwise — appended
to the un-escaped body before escaping; and a successful build captures a
body exactly when the request's body was an actual stream (not nil, not the
no-body sentinel). -/
theorem buildData_matches_spec (args : List Str) (cfg : Config) (m : ParsedRequest)
    (r : Request) (cfg2 : Config) :
    buildData args cfg m =
      (match m.body with
       | none => args
       | some b =>
         args ++ ["--data-raw".toList,
                  escape cfg.style (b ++ specTruncationMarker m.bodyTruncated m.contentLength)])
    ∧ bodyPresentOf (parsedRequestBuild r cfg2) =
        (modelOf (parsedRequestBuild r cfg2)).map (fun _ => r.body.isStream) := by
  constructor
  · cases hb : m.body with
    | none => simp [buildData, hb]
    | some b =>
      simp only [buildData, hb, specTruncationMarker]
      split_ifs <;> simp
  · unfold parsedRequestBuild
    cases hb : r.body with
    | nil => rfl
    | noBody => rfl
    | stream data hardErr =>
      simp only [restore_eq]
      repeat' split
      all_goals simp_all [bodyPresentOf, modelOf, BodyReader.isStream]

/-- C9: the flags stage appends, in this order, the silent flag, the
request-timeout flag plus seconds (only when the timeout is positive), the
insecure flag, the compressed flag and the follow-redirects flag, each only
when enabled; a negative timeout option is clamped to 0 and never appears,
while a positive timeout N appears as the short or long max-time flag
followed by N. -/
theorem buildOptions_order_and_timeout (args : List Str) (cfg : Config) (s : Int) :
    buildOptions args cfg =
      args ++ specSilentPart cfg ++ specTimeoutPart cfg ++ specInsecurePart cfg ++
        specCompressedPart cfg ++ specLocationPart cfg
    ∧ (applyOption (.requestTimeout s) cfg).requestTimeout = (if s < 0 then 0 else s)
    ∧ specTimeoutPart (applyOption (.requestTimeout s) cfg) =
        (if 0 < s then [optionForm cfg.style "-m".toList "--max-time".toList, intToStr s]
         else []) := by
  refine ⟨?_, rfl, ?_⟩
  · unfold buildOptions specSilentPart specTimeoutPart specInsecurePart specCompressedPart
      specLocationPart
    split_ifs <;> simp
  · simp only [specTimeoutPart, applyOption]
    split_ifs <;> first
      | rfl
      | omega

/-- Modelled from the spec: the generic header lines — every header not in
the handled set and not canonicalizing to Host, as "Canonical-Key: values". -/
def specGenericHeaderLines (handled : List Str) (hs : List (Str × List Str)) : List Str :=
  hs.filterMap fun kv =>
    if canonicalHeaderKey kv.1 ∈ handled ∨ canonicalHeaderKey kv.1 = hostKey then none
    else some (canonicalHeaderKey kv.1 ++ colonSp ++ joinSep commaSp kv.2)

/-- Modelled from the spec: the host value supplied by a header canonicalizing
to Host (the first unhandled one carrying a non-empty joined value), used when
the request's own host-override field is empty. -/
def specHostFromHeaders (handled : List Str) : List (Str × List Str) → Str
  | [] => []
  | kv :: rest =>
    if canonicalHeaderKey kv.1 ∉ handled ∧ canonicalHeaderKey kv.1 = hostKey ∧
        joinSep commaSp kv.2 ≠ [] then
      joinSep commaSp kv.2
    else specHostFromHeaders handled rest

/-- Modelled from the spec: the resolved host — the request's host-override
field when non-empty (it always wins), else a Host header's value. -/
def specResolvedHost (handled : List Str) (hs : List (Str × List Str)) (hostOverride : Str) : Str :=
  if hostOverride = [] then specHostFromHeaders handled hs else hostOverride

/-- The generic header lines collected by the buildHeaders loop do not depend
on the running host value and are exactly the spec's generic lines (every
Host-canonical header is diverted, never emitted generically). -/
theorem collectHeaders_fst (handled : List Str) :
    ∀ (hs : List (Str × List Str)) (host0 : Str),
      (collectHeaders handled hs host0).1 = specGenericHeaderLines handled hs := by
  intro hs
  induction hs with
  | nil => intro host0; rfl
  | cons kv rest ih =>
    intro host0
    obtain ⟨k, vs⟩ := kv
    by_cases h1 : canonicalHeaderKey k ∈ handled
    · simp [collectHeaders, specGenericHeaderLines, h1, ih]
    · by_cases h2 : canonicalHeaderKey k = hostKey
      · rw [h2] at h1
        simp [collectHeaders, specGenericHeaderLines, h1, h2, ih]
      · simp [collectHeaders, specGenericHeaderLines, h1, h2, ih]

/-- The host value threaded through the buildHeaders loop resolves exactly as
the spec says: a non-empty host-override always wins; otherwise the first
Host-canonical unhandled header with a non-empty joined value supplies it. -/
theorem collectHeaders_snd (handled : List Str) :
    ∀ (hs : List (Str × List Str)) (host0 : Str),
      (collectHeaders handled hs host0).2 = specResolvedHost handled hs host0 := by
  intro hs
  induction hs with
  | nil =>
    intro host0
    by_cases h0 : host0 = [] <;> simp [collectHeaders, specResolvedHost, specHostFromHeaders, h0]
  | cons kv rest ih =>
    intro host0
    obtain ⟨k, vs⟩ := kv
    by_cases h1 : canonicalHeaderKey k ∈ handled
    · by_cases h0 : host0 = [] <;>
        simp [collectHeaders, specResolvedHost, specHostFromHeaders, h0, h1, ih]
    · by_cases h2 : canonicalHeaderKey k = hostKey
      · rw [h2] at h1
        by_cases h0 : host0 = []
        · by_cases h3 : joinSep commaSp vs = []
          · simp [collectHeaders, specResolvedHost, specHostFromHeaders, h0, h1, h2, h3, ih]
          · simp [collectHeaders, specResolvedHost, specHostFromHeaders, h0, h1, h2, h3, ih]
        · simp [collectHeaders, specResolvedHost, specHostFromHeaders, h0, h1, h2, ih]
      · by_cases h0 : host0 = [] <;>
          simp [collectHeaders, specResolvedHost, specHostFromHeaders, h0, h1, h2, ih]

/-- C7: the emitted header lines are the lexicographically sorted header
strings (sorted by their full "Key: value" text), rendered one per line. -/
theorem buildHeaders_sorted (cfg : Config) (model : ParsedRequest) (handled : List Str) :
    List.Sorted (· ≤ ·) (headerLines model handled)
    ∧ buildHeaders cfg model handled =
        (if model.request.header = [] ∧ model.request.host = [] then []
         else (headerLines model handled).map (headerTokenOf cfg)) := by
  exact ⟨List.sorted_insertionSort _ _, rfl⟩

/-- C8: a non-empty host-override determines the Host entry and Host headers
are dropped entirely; with an empty override a Host-canonical header supplies
the host value instead of being emitted generically; and exactly one
"Host: value" entry is appended whenever a host value exists from either
source. -/
theorem buildHeaders_host_resolution (handled : List Str) (hs : List (Str × List Str))
    (host0 : Str) (model : ParsedRequest) :
    (collectHeaders handled hs host0).1 = specGenericHeaderLines handled hs
    ∧ (collectHeaders handled hs host0).2 = specResolvedHost handled hs host0
    ∧ preSortHeaderLines model handled =
        specGenericHeaderLines handled model.request.header ++
          (if specResolvedHost handled model.request.header model.request.host = [] then []
           else
             [hostKey ++ colonSp ++
               specResolvedHost handled model.request.header model.request.host]) := by
  refine ⟨collectHeaders_fst handled hs host0, collectHeaders_snd handled hs host0, ?_⟩
  simp only [preSortHeaderLines]
  rw [collectHeaders_fst handled _ _, collectHeaders_snd handled _ _]

/-- replaceAllChar on the empty string. -/
theorem replaceAllChar_nil (t : Char) (rep : Str) : replaceAllChar t rep [] = [] := rfl

/-- replaceAllChar on a cons. -/
theorem replaceAllChar_cons (t : Char) (rep : Str) (c : Char) (s : Str) :
    replaceAllChar t rep (c :: s) = (if c = t then rep else [c]) ++ replaceAllChar t rep s := by
  simp [replaceAllChar]

/-- replaceAllChar distributes over append. -/
theorem replaceAllChar_append (t : Char) (rep : Str) (a b : Str) :
    replaceAllChar t rep (a ++ b) = replaceAllChar t rep a ++ replaceAllChar t rep b := by
  simp [replaceAllChar]

/-- Reading a single quote in single-quote mode closes the quote. -/
theorem parse_insq_quote (rest : Str) :
    parseShellWord (quoteS :: rest) .insq = parseShellWord rest .plain := by
  rw [parseShellWord.eq_def]
  simp +decide

/-- Any other character in single-quote mode is literal. -/
theorem parse_insq_other (c : Char) (rest : Str) (h : c ≠ quoteS) :
    parseShellWord (c :: rest) .insq = (parseShellWord rest .insq).map (c :: ·) := by
  simp [parseShellWord, h]

/-- Reading a single quote outside quotes opens single-quote mode. -/
theorem parse_plain_quote (rest : Str) :
    parseShellWord (quoteS :: rest) .plain = parseShellWord rest .insq := by
  rw [parseShellWord.eq_def]
  simp +decide

/-- Reading a double quote outside quotes opens double-quote mode. -/
theorem parse_plain_dquote (rest : Str) :
    parseShellWord (quoteD :: rest) .plain = parseShellWord rest .indq := by
  rw [parseShellWord.eq_def]
  simp +decide

/-- A backslash outside quotes escapes the next character. -/
theorem parse_plain_bslash (d : Char) (rest : Str) (h : d ≠ nlChar) :
    parseShellWord (bslash :: d :: rest) .plain = (parseShellWord rest .plain).map (d :: ·) := by
  simp +decide [parseShellWord, h]

/-- Reading a double quote in double-quote mode closes the quote. -/
theorem parse_indq_close (rest : Str) :
    parseShellWord (quoteD :: rest) .indq = parseShellWord rest .plain := by
  rw [parseShellWord.eq_def]
  simp +decide

/-- In double-quote mode a backslash escapes dollar, backtick, double-quote
and backslash. -/
theorem parse_indq_esc (d : Char) (rest : Str)
    (h : d = quoteD ∨ d = btick ∨ d = dollar ∨ d = bslash) :
    parseShellWord (bslash :: d :: rest) .indq = (parseShellWord rest .indq).map (d :: ·) := by
  rw [parseShellWord.eq_def]
  simp +decide [h]

/-- In double-quote mode an ordinary character is literal. -/
theorem parse_indq_other (c : Char) (rest : Str) (h1 : c ≠ quoteD) (h2 : c ≠ bslash)
    (h3 : ¬(c = dollar ∨ c = btick)) :
    parseShellWord (c :: rest) .indq = (parseShellWord rest .indq).map (c :: ·) := by
  rw [parseShellWord.eq_def]
  simp +decide [h1, h2, h3]

/-- Parsing the single-quote-escaped body inside single quotes accumulates
exactly the original characters. -/
theorem parse_sq_body (s : Str) : ∀ rest : Str,
    parseShellWord (replaceAllChar quoteS [quoteS, bslash, quoteS, quoteS] s ++ quoteS :: rest)
        .insq
      = (parseShellWord rest .plain).map (s ++ ·) := by
  induction s with
  | nil =>
    intro rest
    rw [replaceAllChar_nil, List.nil_append, parse_insq_quote]
    cases parseShellWord rest .plain <;> simp
  | cons c s ih =>
    intro rest
    rw [replaceAllChar_cons]
    by_cases hc : c = quoteS
    · subst hc
      rw [if_pos rfl]
      simp only [List.cons_append, List.nil_append]
      rw [parse_insq_quote, parse_plain_bslash _ _ (by decide), parse_plain_quote, ih rest]
      cases parseShellWord rest .plain <;> simp
    · rw [if_neg hc]
      simp only [List.cons_append, List.nil_append]
      rw [parse_insq_other c _ hc, ih rest]
      cases parseShellWord rest .plain <;> simp

/-- The combined effect of the three double-quote-mode replacements on one
character. -/
def dqEscChar (c : Char) : Str :=
  if c = quoteD then [bslash, quoteD]
  else if c = btick then [bslash, btick]
  else if c = dollar then [bslash, dollar]
  else [c]

/-- The chain of the three double-quote replacements is a single per-character
substitution. -/
theorem dq_chain_eq (s : Str) :
    replaceAllChar dollar [bslash, dollar] (replaceAllChar btick [bslash, btick]
      (replaceAllChar quoteD [bslash, quoteD] s)) = s.flatMap dqEscChar := by
  induction s with
  | nil => rfl
  | cons c s ih =>
    rw [replaceAllChar_cons, replaceAllChar_append, replaceAllChar_append, List.flatMap_cons,
      ih]
    congr 1
    by_cases h1 : c = quoteD
    · subst h1; simp +decide [replaceAllChar, dqEscChar]
    · by_cases h2 : c = btick
      · subst h2; simp +decide [replaceAllChar, dqEscChar]
      · by_cases h3 : c = dollar
        · subst h3; simp +decide [replaceAllChar, dqEscChar]
        · simp [replaceAllChar, dqEscChar, h1, h2, h3]

/-- Parsing the double-quote-escaped body inside double quotes accumulates
exactly the original characters, provided the original had no backslash. -/
theorem parse_dq_body (s : Str) : ∀ rest : Str, bslash ∉ s →
    parseShellWord (s.flatMap dqEscChar ++ quoteD :: rest) .indq
      = (parseShellWord rest .plain).map (s ++ ·) := by
  induction s with
  | nil =>
    intro rest _
    rw [List.flatMap_nil, List.nil_append, parse_indq_close]
    cases parseShellWord rest .plain <;> simp
  | cons c s ih =>
    intro rest hb
    have hbc : c ≠ bslash := fun hh => hb (hh ▸ List.mem_cons_self c s)
    have hbs : bslash ∉ s := fun hh => hb (List.mem_cons_of_mem c hh)
    rw [List.flatMap_cons]
    by_cases h1 : c = quoteD
    · subst h1
      rw [show dqEscChar quoteD = [bslash, quoteD] by rfl]
      simp only [List.cons_append, List.nil_append]
      rw [parse_indq_esc _ _ (Or.inl rfl), ih rest hbs]
      cases parseShellWord rest .plain <;> simp
    · by_cases h2 : c = btick
      · subst h2
        rw [show dqEscChar btick = [bslash, btick] by rfl]
        simp only [List.cons_append, List.nil_append]
        rw [parse_indq_esc _ _ (Or.inr (Or.inl rfl)), ih rest hbs]
        cases parseShellWord rest .plain <;> simp
      · by_cases h3 : c = dollar
        · subst h3
          rw [show dqEscChar dollar = [bslash, dollar] by decide]
          simp only [List.cons_append, List.nil_append]
          rw [parse_indq_esc _ _ (Or.inr (Or.inr (Or.inl rfl))), ih rest hbs]
          cases parseShellWord rest .plain <;> simp
        · rw [show dqEscChar c = [c] by simp [dqEscChar, h1, h2, h3]]
          simp only [List.cons_append, List.nil_append]
          rw [parse_indq_other c _ h1 (fun hh => hbc hh) (not_or.mpr ⟨h3, h2⟩), ih rest hbs]
          cases parseShellWord rest .plain <;> simp

/-- C2 (counterexample): escaping a lone backslash in double-quote mode yields
a word a POSIX reader cannot read back as the original string (the backslash
escapes the closing double quote, leaving the token unterminated). -/
theorem escape_dq_backslash_no_roundtrip :
    parseShellWord (escape { useDoubleQuotes := true } [bslash]) QMode.plain ≠ some [bslash] := by
  decide

/-- C2 (amended): parsing the escaped form under the POSIX quoting convention
reproduces the original string byte-for-byte — for every string in
single-quote mode, and in double-quote mode for every string containing no
backslash (a backslash survives escaping unprotected and is re-interpreted by
the shell, so the round trip can fail there). -/
theorem escape_posix_roundtrip (style : OutputStyle) (s : Str) :
    (style.useDoubleQuotes = false → parseShellWord (escape style s) QMode.plain = some s)
    ∧ (style.useDoubleQuotes = true → bslash ∉ s →
        parseShellWord (escape style s) QMode.plain = some s) := by
  constructor
  · intro h
    simp only [escape, h, Bool.false_eq_true, if_false, List.cons_append]
    rw [parse_plain_quote, parse_sq_body s []]
    simp [parseShellWord]
  · intro h hb
    simp only [escape, h, if_true, List.cons_append]
    rw [dq_chain_eq, parse_plain_dquote, parse_dq_body s [] hb]
    simp [parseShellWord]

/-- Witness for the escaping round trip: a concrete string containing a single
quote, a double quote, a backtick and a dollar sign round-trips in both
quoting modes. -/
theorem escape_posix_roundtrip_witness :
    parseShellWord (escape {} ("a'b\"c`d$e".toList)) QMode.plain = some ("a'b\"c`d$e".toList)
    ∧ parseShellWord (escape { useDoubleQuotes := true } ("a'b\"c`d$e".toList)) QMode.plain
        = some ("a'b\"c`d$e".toList) :=
  ⟨(escape_posix_roundtrip {} ("a'b\"c`d$e".toList)).1 rfl,
   (escape_posix_roundtrip { useDoubleQuotes := true } ("a'b\"c`d$e".toList)).2 rfl (by decide)⟩

/-- A POST request to https://localhost/test with the given body reader and
declared content length, and nothing else set. -/
def reqWithBody (b : BodyReader) (cl : Int) : Request :=
  { method := "POST".toList
    url := some "https://localhost/test".toList
    host := []
    header := []
    contentLength := cl
    body := b
    basicAuth := none
    cookieStrings := [] }

/-- Any 4096-byte stream is flagged as truncated under max-body-size 4096. -/
theorem truncatedOf_spurious_aux (data : Str) (h : data.length = 4096) (cl : Int) :
    truncatedOf (parsedRequestBuild (reqWithBody (.stream data false) cl)
      { maxBodySize := 4096 }) = some true := by
  simp only [parsedRequestBuild, reqWithBody, bufioPeek, bufSize, defaultMaxBodySize]
  repeat' split
  all_goals simp_all [List.length_take, truncatedOf]

/-- C3, evaluated at the failing input: with max-body-size 4096 and a stream
of exactly 4096 bytes — not more — the build sets the truncation flag, because
Peek(4097) exceeds the bufio buffer size (4096) and reports ErrBufferFull,
which the code reads as truncation. -/
theorem truncation_flag_spurious_at_limit_4096 :
    truncatedOf (parsedRequestBuild
        (reqWithBody (.stream (List.replicate 4096 'a') false) 4096)
        { maxBodySize := 4096 }) = some true
    ∧ (List.replicate 4096 'a').length = 4096 := by
  exact ⟨truncatedOf_spurious_aux _ (List.length_replicate 4096 'a') 4096,
    List.length_replicate 4096 'a'⟩

/-- C10, evaluated at the failing input: a 3-byte body with max-body-size
4096 makes NewFromRequest panic — Peek(4097) exceeds the bufio buffer size and
reports ErrBufferFull with only 3 buffered bytes, the code takes that for
truncation and bytes.Buffer.Truncate(4096) is out of range for the 3-byte
buffer. -/
theorem newFromRequest_panics_on_limit_4096 :
    newFromRequest (reqWithBody (.stream "abc".toList false) 3)
        [CurlOption.maxBodySize 4096] = CmdRes.crash := by
  decide

/-- C4, evaluated at the failing input: a stream that yields 3 bytes and then
a hard I/O error, with max-body-size 4096 — the hard failure is encountered
while reading, but Peek masks it behind ErrBufferFull and NewFromRequest
panics instead of returning the error. -/
theorem hard_io_failure_not_surfaced_at_limit_4096 :
    newFromRequest (reqWithBody (.stream "abc".toList true) (-1))
        [CurlOption.maxBodySize 4096] = CmdRes.crash := by
  decide

end Curling
